import Mathlib

/-!
Verification of the pulumi-cloud-import discovery engine.

This file gives a shallow embedding of the discovery pipeline found in
the repository sources:
  - pulumi-cloud-import-aws/main.go   (AWS variant)
  - pulumi-cloud-import-azure/main.go (three Azure variants, concatenated)
  - pulumi-insights-import/main.go    (insights variant)
  - unnamed/part_002, part_003        (Kubernetes variants)
Pure computations (string sanitization, type-token mapping, round-robin
partitioning, per-worker pagination folds, aggregation) are translated
into executable Lean functions.  External collaborators (the paginated
listing APIs, schemas, credentials, the pluralize library and the Go
standard library Title function) enter as explicit parameters, exactly
at the interface boundary the code uses them.
-/

namespace CloudImport

/-- The importSpec record type shared by the AWS and Azure variants
(fields used by the discovery engine: Type, Name, ID, Parent). -/
structure ImportSpec where
  type : String
  name : String
  id : String
  parent : String
deriving DecidableEq, Repr

/-- The importFile wrapper: the inventory assembled by the Aggregator
(the NameTable field is never populated by the engine and is omitted). -/
structure ImportFile where
  resources : List ImportSpec
deriving DecidableEq, Repr

/-- Run modes, from the Mode constants of the sources. -/
inductive Mode where
  | ImportMode
  | IncrementalImportMode
  | ReadMode
deriving DecidableEq, Repr

/-- Characters kept by the regex [^a-zA-Z0-9 ]+ replacement in
clearString: ASCII letters, digits and the space. -/
def isAllowedChar (c : Char) : Bool :=
  (('a' ≤ c && c ≤ 'z') || ('A' ≤ c && c ≤ 'Z') || ('0' ≤ c && c ≤ '9') || c == ' ')

/-- Consume one maximal run of disallowed characters at the head of the
list: this is the text matched by one occurrence of the regex
[^a-zA-Z0-9 ]+ during the left-to-right scan of ReplaceAllString. -/
def dropDisallowedRun : List Char → List Char
  | [] => []
  | c :: cs => if isAllowedChar c then c :: cs else dropDisallowedRun cs

theorem dropDisallowedRun_length_le (l : List Char) :
    (dropDisallowedRun l).length ≤ l.length := by
  induction l with
  | nil => simp [dropDisallowedRun]
  | cons c cs ih =>
    simp only [dropDisallowedRun]
    split
    · simp
    · exact Nat.le_succ_of_le ih

/-- The left-to-right scan of ReplaceAllString for the pattern
[^a-zA-Z0-9 ]+ with replacement "": allowed characters are copied,
each maximal run of disallowed characters is replaced by nothing. -/
def replaceDisallowedRuns : List Char → List Char
  | [] => []
  | c :: cs =>
    if isAllowedChar c then c :: replaceDisallowedRuns cs
    else replaceDisallowedRuns (dropDisallowedRun cs)
termination_by l => l.length
decreasing_by
  · simp
  · exact Nat.lt_succ_of_le (dropDisallowedRun_length_le cs)

/-- Character-wise removal of disallowed characters.  Because the
replacement text of ReplaceAllString is empty, deleting each maximal
run of disallowed characters produces the same string as deleting the
disallowed characters one by one; the agreement with the run-based
scan replaceDisallowedRuns is proved below. -/
def removeDisallowed : List Char → List Char
  | [] => []
  | c :: cs => if isAllowedChar c then c :: removeDisallowed cs else removeDisallowed cs

/-- clearString from the AWS and Azure variants:
nonAlphanumericRegex.ReplaceAllString(str, "") for the regex
[^a-zA-Z0-9 ]+ . -/
def clearString (s : String) : String :=
  ⟨removeDisallowed s.data⟩

theorem filter_dropDisallowedRun (l : List Char) :
    (dropDisallowedRun l).filter isAllowedChar = l.filter isAllowedChar := by
  induction l with
  | nil => rfl
  | cons c cs ih =>
    simp only [dropDisallowedRun]
    by_cases h : isAllowedChar c
    · simp [h]
    · simp [h, ih]

theorem replaceDisallowedRuns_eq_filter (l : List Char) :
    replaceDisallowedRuns l = l.filter isAllowedChar := by
  induction l using replaceDisallowedRuns.induct with
  | case1 => simp [replaceDisallowedRuns]
  | case2 c cs h ih =>
    simp [replaceDisallowedRuns, h, ih]
  | case3 c cs h ih =>
    simp [replaceDisallowedRuns, h, ih, filter_dropDisallowedRun]

theorem removeDisallowed_eq_filter (l : List Char) :
    removeDisallowed l = l.filter isAllowedChar := by
  induction l with
  | nil => rfl
  | cons c cs ih =>
    by_cases h : isAllowedChar c <;> simp [removeDisallowed, h, ih]

/-- The char-wise scanner and the run-based regex scan agree. -/
theorem removeDisallowed_eq_replaceDisallowedRuns (l : List Char) :
    removeDisallowed l = replaceDisallowedRuns l := by
  rw [removeDisallowed_eq_filter, replaceDisallowedRuns_eq_filter]

theorem clearString_data (s : String) :
    (clearString s).data = s.data.filter isAllowedChar := by
  simp [clearString, removeDisallowed_eq_filter]

theorem clearString_all_allowed (s : String) :
    (clearString s).data.all isAllowedChar = true := by
  rw [clearString_data]
  simp only [List.all_eq_true]
  intro c hc
  exact List.of_mem_filter hc

theorem clearString_sublist (s : String) :
    (clearString s).data.Sublist s.data := by
  rw [clearString_data]; exact List.filter_sublist s.data

/-- C7: the display-name sanitizer clearString is idempotent, and it
removes exactly the characters outside [A-Za-z0-9 ], leaving the
characters inside that set in place and in order (its output is the
in-order filter of its input by the allowed-character predicate, which
is also what the run-based scan of the regex replacement computes). -/
theorem clearString_idempotent_and_exact (s : String) :
    clearString (clearString s) = clearString s ∧
      (clearString s).data = s.data.filter isAllowedChar ∧
      (clearString s).data = replaceDisallowedRuns s.data := by
  refine ⟨?_, clearString_data s, ?_⟩
  · apply String.ext
    rw [clearString_data, clearString_data]
    apply List.filter_eq_self.mpr
    intro c hc
    exact List.of_mem_filter hc
  · rw [clearString_data, replaceDisallowedRuns_eq_filter]

/-- Helper for goSplit: scan the character list, cutting at every
occurrence of the separator (empty segments included), as Go
strings.Split does for a one-character separator. -/
def splitOnCharAux (sep : Char) : List Char → List Char → List (List Char)
  | [], acc => [acc.reverse]
  | c :: cs, acc =>
    if c == sep then acc.reverse :: splitOnCharAux sep cs []
    else splitOnCharAux sep cs (c :: acc)

/-- Go strings.Split(s, sep) for a one-character separator, as used on
":", ".", and "/" by the sources. -/
def goSplit (sep : Char) (s : String) : List String :=
  (splitOnCharAux sep s.data []).map fun l => ⟨l⟩

/-- Decimal digit value of a character, none if it is not a digit. -/
def digitVal (c : Char) : Option Nat :=
  if '0' ≤ c && c ≤ '9' then some (c.toNat - '0'.toNat) else none

/-- Go strconv.Atoi: optional sign, then at least one decimal digit and
nothing else; values outside the 64-bit signed range are an error
(ErrRange), which the caller sees as a failed parse. -/
def goAtoi (s : String) : Option Int :=
  let signAndDigits : Int × List Char :=
    match s.data with
    | '+' :: rest => (1, rest)
    | '-' :: rest => (-1, rest)
    | l => (1, l)
  match signAndDigits.2 with
  | [] => none
  | digits =>
    match digits.foldl
        (fun acc c => acc.bind fun a => (digitVal c).map fun d => a * 10 + (d : Int))
        (some 0) with
    | none => none
    | some n =>
      let v : Int := signAndDigits.1 * n
      if v < -(2 ^ 63) || 2 ^ 63 ≤ v then none else some v

/-- getConcurrentWorkers from the AWS and Kubernetes variants: parse
PULUMI_CLOUD_IMPORT_WORKERS with strconv.Atoi and return 10 on any
parse error, otherwise the parsed value unchanged.  The argument is
the value os.Getenv returned (the empty string when the variable is
unset). -/
def getConcurrentWorkers (envVal : String) : Int :=
  match goAtoi envVal with
  | none => 10
  | some w => w

/-- Go runtime panics that the partitioning loop of buildImportSpec can
hit when the worker count is not positive. -/
inductive GoPanic where
  | indexOutOfRange
  | divByZero
  | makeslice
deriving DecidableEq, Repr

/-- One iteration of the chunking loop of the AWS buildImportSpec:
  pkgChunks[index] = append(pkgChunks[index], k); index++; index = index % chunks
in the total setting (index always in range, chunks positive). -/
def partitionStep (n : Nat) (acc : List (List String) × Nat) (k : String) :
    List (List String) × Nat :=
  (acc.1.set acc.2 (acc.1.getD acc.2 [] ++ [k]), (acc.2 + 1) % n)

/-- The round-robin partitioner of the AWS buildImportSpec: split the
catalog of type tokens into n chunks, assigning element number j to
chunk j % n. -/
def partitionGo (catalog : List String) (n : Nat) : List (List String) :=
  (catalog.foldl (partitionStep n) (List.replicate n [], 0)).1

/-- The chunking loop with the Go runtime checks made explicit, in the
evaluation order of the source: the slice access pkgChunks[index] is
executed (and panics when index is out of range) before the statement
index = index % chunks is reached (which panics when chunks is 0). -/
def partitionFoldChecked (n : Nat) :
    List String → List (List String) × Nat → Except GoPanic (List (List String) × Nat)
  | [], acc => .ok acc
  | k :: ks, acc =>
    if acc.2 < acc.1.length then
      let written := acc.1.set acc.2 (acc.1.getD acc.2 [] ++ [k])
      if n = 0 then .error .divByZero
      else partitionFoldChecked n ks (written, (acc.2 + 1) % n)
    else .error .indexOutOfRange

/-- The partitioning step of the AWS buildImportSpec with Go panic
semantics: make([][]string, chunks) panics on a negative length, the
loop body panics as in partitionFoldChecked. -/
def partitionChecked (catalog : List String) (chunks : Int) :
    Except GoPanic (List (List String)) :=
  if chunks < 0 then .error .makeslice
  else (partitionFoldChecked chunks.toNat catalog (List.replicate chunks.toNat [], 0)).map (·.1)

theorem partitionFoldChecked_ok (n : Nat) (catalog : List String) :
    ∀ acc : List (List String) × Nat, acc.1.length = n → acc.2 < n →
      partitionFoldChecked n catalog acc = .ok (catalog.foldl (partitionStep n) acc) := by
  induction catalog with
  | nil => intro acc _ _; rfl
  | cons k ks ih =>
    intro acc hlen hidx
    have hlt : acc.2 < acc.1.length := by rw [hlen]; exact hidx
    have hn : n ≠ 0 := by omega
    simp only [partitionFoldChecked, hlt, if_true, hn, if_false, List.foldl_cons]
    apply ih
    · simp [partitionStep, hlen]
    · exact Nat.mod_lt _ (Nat.pos_of_ne_zero hn)

/-- For a positive worker count the checked partitioner panics on
nothing and agrees with the total round-robin partitioner. -/
theorem partitionChecked_eq_partitionGo (catalog : List String) (n : Nat) (h : 1 ≤ n) :
    partitionChecked catalog (n : Int) = .ok (partitionGo catalog n) := by
  have hneg : ¬ ((n : Int) < 0) := by omega
  simp only [partitionChecked, hneg, if_false, Int.toNat_natCast]
  rw [partitionFoldChecked_ok n catalog (List.replicate n [], 0) (by simp) (by omega)]
  rfl

theorem partition_foldl_length (n : Nat) (catalog : List String) :
    ∀ acc : List (List String) × Nat,
      ((catalog.foldl (partitionStep n) acc).1).length = acc.1.length := by
  induction catalog with
  | nil => intro acc; rfl
  | cons k ks ih =>
    intro acc
    simp only [List.foldl_cons]
    rw [ih]
    simp [partitionStep]

theorem partitionGo_length (catalog : List String) (n : Nat) :
    (partitionGo catalog n).length = n := by
  unfold partitionGo
  rw [partition_foldl_length]
  simp

theorem flatten_set_perm (a : String) :
    ∀ (l : List (List String)) (i : Nat), i < l.length →
      (l.set i (l.getD i [] ++ [a])).flatten.Perm (l.flatten ++ [a]) := by
  intro l
  induction l with
  | nil => intro i h; simp at h
  | cons x xs ih =>
    intro i h
    cases i with
    | zero =>
      simp only [List.set_cons_zero, List.getD_cons_zero, List.flatten_cons, List.append_assoc]
      exact (@List.perm_append_comm _ [a] xs.flatten).append_left x
    | succ j =>
      have hj : j < xs.length := by simpa using h
      simp only [List.set_cons_succ, List.getD_cons_succ, List.flatten_cons, List.append_assoc]
      exact ((ih j hj).trans (by simp)).append_left x

theorem partition_foldl_flatten_perm (n : Nat) (hn : 1 ≤ n) (catalog : List String) :
    ∀ acc : List (List String) × Nat, acc.1.length = n → acc.2 < n →
      ((catalog.foldl (partitionStep n) acc).1).flatten.Perm (acc.1.flatten ++ catalog) := by
  induction catalog with
  | nil => intro acc _ _; simp
  | cons k ks ih =>
    intro acc hlen hidx
    simp only [List.foldl_cons]
    have hstep : ((partitionStep n acc k).1).flatten.Perm (acc.1.flatten ++ [k]) := by
      apply flatten_set_perm
      omega
    have h1 : ((partitionStep n acc k).1).length = n := by simp [partitionStep, hlen]
    have h2 : (partitionStep n acc k).2 < n := Nat.mod_lt _ (by omega)
    have := ih (partitionStep n acc k) h1 h2
    refine this.trans ((hstep.append_right ks).trans (List.Perm.of_eq ?_))
    simp

theorem partitionGo_flatten_perm (catalog : List String) (n : Nat) (hn : 1 ≤ n) :
    (partitionGo catalog n).flatten.Perm catalog := by
  unfold partitionGo
  have := partition_foldl_flatten_perm n hn catalog (List.replicate n [], 0) (by simp) (by omega)
  simpa using this

theorem partitionGo_disjoint (catalog : List String) (n : Nat) (hn : 1 ≤ n)
    (hnd : catalog.Nodup) : (partitionGo catalog n).Pairwise List.Disjoint := by
  have hperm := (partitionGo_flatten_perm catalog n hn).symm
  have : (partitionGo catalog n).flatten.Nodup := hperm.nodup hnd
  exact (List.nodup_flatten.mp this).2

theorem partition_foldl_snd (n : Nat) (hn : 1 ≤ n) (catalog : List String) :
    ∀ acc : List (List String) × Nat, acc.2 < n →
      (catalog.foldl (partitionStep n) acc).2 = (acc.2 + catalog.length) % n := by
  induction catalog with
  | nil => intro acc h; simp [Nat.mod_eq_of_lt h]
  | cons k ks ih =>
    intro acc h
    simp only [List.foldl_cons]
    rw [ih (partitionStep n acc k) (Nat.mod_lt _ (by omega))]
    simp only [partitionStep]
    rw [Nat.mod_add_mod]
    congr 1
    simp [List.length_cons]
    omega

theorem partitionGo_tail_empty (catalog : List String) (n : Nat) :
    ∀ i, catalog.length ≤ i → i < n → (partitionGo catalog n).getD i [] = [] := by
  induction catalog using List.reverseRecOn with
  | nil =>
    intro i _ hi
    unfold partitionGo
    simp only [List.foldl_nil]
    rw [List.getD_eq_getElem?_getD]
    simp [List.getElem?_replicate, hi]
  | append_singleton c a ih =>
    intro i hlen hi
    have hc : c.length < n := by simp at hlen; omega
    have hsnd : (c.foldl (partitionStep n) (List.replicate n [], 0)).2 = c.length := by
      rw [partition_foldl_snd n (by omega) c (List.replicate n [], 0) (by omega)]
      simp [Nat.mod_eq_of_lt hc]
    unfold partitionGo
    rw [List.foldl_append]
    simp only [List.foldl_cons, List.foldl_nil, partitionStep, hsnd]
    rw [List.getD_eq_getElem?_getD, List.getElem?_set_ne (by simp at hlen; omega)]
    rw [← List.getD_eq_getElem?_getD]
    exact ih i (by simp at hlen; omega) hi

/-- The resourcesToSkip denylist of the AWS variant, transcribed from
the source. -/
def awsResourcesToSkip : List String :=
  ["aws-native:cloudformation:PublicTypeVersion",
   "aws-native:athena:DataCatalog",
   "aws-native:appflow:Connector",
   "aws-native:efs:FileSystem",
   "aws-native:route53resolver:ResolverRule",
   "aws-native:memorydb:ParameterGroup",
   "aws-native:robomaker:Fleet",
   "aws-native:robomaker:Robot",
   "aws-native:robomaker:RobotApplication",
   "aws-native:robomaker:RobotApplicationVersion",
   "aws-native:robomaker:SimulationApplication",
   "aws-native:robomaker:SimulationApplicationVersion",
   "aws-native:robomaker:SimulationJob",
   "aws-native:codepipeline:CustomActionType",
   "aws-native:ec2:PrefixList",
   "aws-native:scheduler:ScheduleGroup",
   "aws-native:ecs:CapacityProvider",
   "aws-native:organizations:Organization",
   "aws-native:route53resolver:FirewallDomainList"]

/-- The external collaborators of the AWS buildImportSpec worker: the
csharp namespace alias table of the schema, the paginated
ListResourcesPages call (pages of resource identifiers, keyed by the
Cloud Control type name), and whether that call reports an error for a
given type after its pages were delivered. -/
structure AwsEnv where
  nsMap : String → Option String
  pages : String → List (List String)
  listErr : String → Bool

/-- The namespace chosen for a type token k: the csharp alias for
parts[1] of k when one exists, otherwise parts[1] itself. -/
def awsNamespace (nsMap : String → Option String) (k : String) : String :=
  let p := (goSplit ':' k).getD 1 ""
  (nsMap p).getD p

/-- parts[2] of the type token, the kind segment. -/
def awsTypePart (k : String) : String :=
  (goSplit ':' k).getD 2 ""

/-- The Cloud Control type name AWS::namespace::kind built by the
worker for the listing call. -/
def awsCloudControlType (nsMap : String → Option String) (k : String) : String :=
  "AWS::" ++ awsNamespace nsMap k ++ "::" ++ awsTypePart k

/-- One listed identifier, as handled by the page callback of the AWS
worker: the key is the sanitized identifier (note: the identifier
alone, the type token is not part of the key), the per-worker seen set
is consulted and updated, and a record is emitted for an unseen key. -/
def awsProcessIdentifier (nsMap : String → Option String) (k : String)
    (st : List String × List ImportSpec) (rid : String) :
    List String × List ImportSpec :=
  let key := clearString rid
  if st.1.contains key then st
  else
    (key :: st.1,
     st.2 ++ [{ type := k,
                name := clearString (awsNamespace nsMap k ++ awsTypePart k ++ rid),
                id := rid,
                parent := "" }])

/-- Per-worker state: the seen set of sanitized identifiers (shared
across all types of the chunk, as in the source), the records emitted
to the output channel in order, and the logged listing errors. -/
structure AwsWorkerState where
  seen : List String
  records : List ImportSpec
  logs : List String
deriving DecidableEq, Repr

/-- The log line the worker prints when ListResourcesPages returns an
error for one type (fmt.Println of the error). -/
def awsListErrLog (cct : String) : String :=
  "ListResources failed: " ++ cct

/-- One iteration of the worker loop over its chunk: skip denylisted
tokens, walk every page of the listing call for the type, and log a
listing error without aborting; the loop then continues with the next
type of the chunk. -/
def awsProcessType (env : AwsEnv) (st : AwsWorkerState) (k : String) : AwsWorkerState :=
  if awsResourcesToSkip.contains k then st
  else
    let cct := awsCloudControlType env.nsMap k
    let after := (env.pages cct).foldl
      (fun s page => page.foldl (awsProcessIdentifier env.nsMap k) s)
      (st.seen, st.records)
    { seen := after.1,
      records := after.2,
      logs := st.logs ++ (if env.listErr cct then [awsListErrLog cct] else []) }

/-- One shard worker of the AWS buildImportSpec: processes every type
of its chunk in order and returns the records it pushed onto the
output channel together with its log. -/
def awsWorker (env : AwsEnv) (chunk : List String) : List ImportSpec × List String :=
  let st := chunk.foldl (awsProcessType env) ⟨[], [], []⟩
  (st.records, st.logs)

/-- The per-record side effects an Aggregator can attempt before
continuing: ctx.ReadResource in read (live-register) mode, the
external pulumi import subprocess in incremental mode. -/
inductive EffectCall where
  | readResource (typ nm rid : String)
  | incrementalImport (typ nm rid : String)
deriving DecidableEq, Repr

/-- The side effect the Aggregator attempts for one record in the
given mode, if any. -/
def callOf (mode : Mode) (r : ImportSpec) : Option EffectCall :=
  match mode with
  | .IncrementalImportMode => some (.incrementalImport r.type r.name r.id)
  | .ReadMode => some (.readResource r.type r.name r.id)
  | .ImportMode => none

/-- One iteration of the Aggregator loop (the channel-draining loop of
buildImportSpec): append the received record to the inventory, then in
incremental mode invoke the external import and in read mode invoke
ctx.ReadResource, discarding the result of either call exactly as the
source does with the blank identifier. -/
def aggregateStep (mode : Mode) (effectOk : EffectCall → Bool)
    (acc : List ImportSpec × List EffectCall) (r : ImportSpec) :
    List ImportSpec × List EffectCall :=
  let resources := acc.1 ++ [r]
  match callOf mode r with
  | some call =>
    let _ := effectOk call
    (resources, acc.2 ++ [call])
  | none => (resources, acc.2)

/-- The Aggregator: drain the received stream in arrival order,
appending every record and attempting the per-mode side effect, whose
result is ignored; buildImportSpec then returns the inventory and a
nil error.  The returned triple is the inventory, the trace of
attempted side-effect calls, and the returned error. -/
def aggregate (mode : Mode) (effectOk : EffectCall → Bool)
    (received : List ImportSpec) : ImportFile × List EffectCall × Option String :=
  (⟨(received.foldl (aggregateStep mode effectOk) ([], [])).1⟩,
   (received.foldl (aggregateStep mode effectOk) ([], [])).2,
   none)

/-- A resource group returned by the Azure resource-group pager. -/
structure AzureRg where
  id : String
  name : String
  location : Option String
deriving DecidableEq, Repr

/-- A resource returned by the Azure per-resource-group pager: its ARM
identifier and its ARM type string such as
Microsoft.Compute/virtualMachines. -/
structure AzureRes where
  id : String
  type : String
deriving DecidableEq, Repr

/-- External collaborators of the second (live) Azure buildImportSpec:
the configured location, the resource-group pager pages (a page may be
a NextPage error), the per-resource-group pager pages keyed by the
resource-group name, the schema token set, and the two external string
functions used by the type-token mapping (strings.Title of the Go
standard library and Singular of the pluralize library). -/
structure AzureEnv where
  location : String
  rgPages : List (Except String (List AzureRg))
  resPages : String → List (Except String (List AzureRes))
  schema : List String
  title : String → String
  singular : String → String

/-- The resourcesToSkip denylist of the Azure variant (empty in the
source). -/
def azureResourcesToSkip : List String := []

/-- The resource-group filter of the first phase: a group is skipped
only when it carries a location and that location differs from the
configured one. -/
def azureKeepRg (location : String) (rg : AzureRg) : Bool :=
  match rg.location with
  | none => true
  | some l => l == location

/-- The Canonical Record built for a resource group in the first
phase. -/
def azureRgRecord (rg : AzureRg) : ImportSpec :=
  { type := "azure-native:resources:ResourceGroup",
    name := clearString rg.name,
    id := rg.id,
    parent := "" }

/-- The first phase of the Azure pipeline: walk the resource-group
pager, keep groups in the configured location, and build their records
in page order; a NextPage error is a log.Fatalf, aborting the run. -/
def azureRgPhaseAux (location : String) :
    List (Except String (List AzureRg)) → List ImportSpec → Except String (List ImportSpec)
  | [], acc => .ok acc
  | .error e :: _, _ => .error e
  | .ok rgs :: rest, acc =>
    azureRgPhaseAux location rest (acc ++ (rgs.filter (azureKeepRg location)).map azureRgRecord)

def azureRgPhase (env : AzureEnv) : Except String (List ImportSpec) :=
  azureRgPhaseAux env.location env.rgPages []

/-- strings.ToLower restricted to the ASCII range, as used on Azure
provider namespaces. -/
def toLowerString (s : String) : String :=
  ⟨s.data.map Char.toLower⟩

/-- The Azure type-token mapping: split the ARM type on ".", split the
second part on "/", lowercase the first segment as the namespace and
singularize the Title-cased last segment as the kind. -/
def azureTypeToken (env : AzureEnv) (armType : String) : String :=
  let parts := goSplit '.' armType
  let parts2 := goSplit '/' (parts.getD 1 "")
  let ns := parts2.getD 0 ""
  let kind := env.singular (env.title (parts2.getLastD ""))
  "azure-native:" ++ toLowerString ns ++ ":" ++ kind

/-- The Canonical Record built for a child resource in a shard worker:
the display name is the sanitized last segment of the ARM identifier,
the parent is the resource-group identifier the worker was given. -/
def azureChildRecord (env : AzureEnv) (rgId : String) (r : AzureRes) : ImportSpec :=
  { type := azureTypeToken env r.type,
    name := clearString ((goSplit '/' r.id).getLastD ""),
    id := r.id,
    parent := rgId }

/-- One listed resource in an Azure shard worker: skip tokens missing
from the schema, skip denylisted tokens, consult and update the
per-worker seen set (keyed by the full ARM identifier), and emit the
child record otherwise. -/
def azureProcessRes (env : AzureEnv) (rgId : String)
    (st : List String × List ImportSpec) (r : AzureRes) :
    List String × List ImportSpec :=
  if !(env.schema.contains (azureTypeToken env r.type)) then st
  else if azureResourcesToSkip.contains (azureTypeToken env r.type) then st
  else if st.1.contains r.id then st
  else (r.id :: st.1, st.2 ++ [azureChildRecord env rgId r])

/-- The page loop of one Azure shard worker: a NextPage error is a
log.Fatalf, aborting the run; otherwise every resource of the page is
processed in order. -/
def azureWorkerAux (env : AzureEnv) (rgId : String) :
    List (Except String (List AzureRes)) → List String × List ImportSpec →
      Except String (List String × List ImportSpec)
  | [], st => .ok st
  | .error e :: _, _ => .error e
  | .ok rs :: rest, st =>
    azureWorkerAux env rgId rest (rs.foldl (azureProcessRes env rgId) st)

/-- One Azure shard worker (one goroutine per resource group): derive
the resource-group name from the last segment of its identifier, walk
the filtered pager for that group, and return the emitted records in
order, or the fatal listing error. -/
def azureWorker (env : AzureEnv) (rgId : String) : Except String (List ImportSpec) :=
  (azureWorkerAux env rgId (env.resPages ((goSplit '/' rgId).getLastD "")) ([], [])).map (·.2)

/-- Run all shard workers; any fatal worker error aborts the run
(log.Fatalf exits the whole process).  In the successful case the
concatenation order used here is one admissible schedule of the shared
channel; ordering-sensitive facts are stated over arbitrary schedules
separately. -/
def azureCollectWorkers (env : AzureEnv) : List String → Except String (List ImportSpec)
  | [] => .ok []
  | rg :: rest =>
    match azureWorker env rg with
    | .error e => .error e
    | .ok out =>
      match azureCollectWorkers env rest with
      | .error e => .error e
      | .ok outs => .ok (out ++ outs)

/-- The parent-stripping copy the second Azure variant applies when
appending a received record to the inventory (the parent field would
need to be a URN, so it is dropped). -/
def azureStrip (r : ImportSpec) : ImportSpec :=
  { type := r.type, name := r.name, id := r.id, parent := "" }

/-- The second (live) Azure buildImportSpec: first phase enumerates and
enqueues every resource-group record, then the shard workers run, then
the Aggregator drains the channel, stripping parents; any log.Fatalf
aborts the run with no inventory. -/
def azureV2Run (env : AzureEnv) : Except String ImportFile :=
  match azureRgPhase env with
  | .error e => .error e
  | .ok parents =>
    match azureCollectWorkers env (parents.map (·.id)) with
    | .error e => .error e
    | .ok children => .ok ⟨(parents ++ children).map azureStrip⟩

/-- The first Azure variant of buildImportSpec: it allocates the empty
inventory, performs the OIDC sanity check (resources.NewResourceGroup),
returns the empty inventory with the error when the check fails, and
then returns the empty inventory with a nil error unconditionally; the
whole discovery pipeline below that return statement (modelled by the
pipeline argument) is syntactically present but never invoked. -/
def azureV1BuildImportSpec (sanity : Except String Unit)
    (pipeline : AzureEnv → Except String ImportFile) (env : AzureEnv) :
    ImportFile × Option String :=
  let imports : ImportFile := ⟨[]⟩
  match sanity with
  | .error e => (imports, some e)
  | .ok _ => (imports, none)

/-- The importSpec of the Kubernetes variant (unnamed/part_002): Token,
Name and ID only. -/
structure K8sImportSpec where
  token : String
  name : String
  id : String
deriving DecidableEq, Repr

/-- The token function of the Kubernetes variant: group empty means the
core group. -/
def k8sToken (group version kind : String) : String :=
  if group == "" then "kubernetes:core/" ++ version ++ ":" ++ kind
  else "kubernetes:" ++ group ++ "/" ++ version ++ ":" ++ kind

/-- The id function of the Kubernetes variant: namespace/name for
namespaced objects, the bare name otherwise.  It is used unchanged as
the display name: no sanitization is applied. -/
def k8sId (ns nm : String) : String :=
  if ns != "" then ns ++ "/" ++ nm else nm

/-- The record the Kubernetes variant publishes for one listed object:
Name and ID are both the id function of the object. -/
def k8sRecord (group version kind ns nm : String) : K8sImportSpec :=
  { token := k8sToken group version kind,
    name := k8sId ns nm,
    id := k8sId ns nm }

/-- One listed item in the insights variant: the per-type counter is
incremented for every item, and a record is appended for every item
with an identifier, with the counter embedded in the display name; no
seen set exists in this variant. -/
def insightsProcessPageItem (ns typPart k : String)
    (acc : Nat × List ImportSpec) (rid : Option String) : Nat × List ImportSpec :=
  let n := acc.1 + 1
  match rid with
  | none => (n, acc.2)
  | some i =>
    (n, acc.2 ++ [{ type := k, name := ns ++ typPart ++ toString n, id := i, parent := "" }])

/-- The insights variant processing of one type: walk every page and
every item with the per-type counter starting at zero; overlapping
pages are not deduplicated. -/
def insightsProcessType (nsMap : String → Option String) (k : String)
    (pages : List (List (Option String))) : List ImportSpec :=
  let ns := awsNamespace nsMap k
  let typPart := awsTypePart k
  (pages.foldl (fun acc page => page.foldl (insightsProcessPageItem ns typPart k) acc)
    (0, [])).2

theorem aggregateStep_fst (mode : Mode) (effectOk : EffectCall → Bool)
    (acc : List ImportSpec × List EffectCall) (r : ImportSpec) :
    (aggregateStep mode effectOk acc r).1 = acc.1 ++ [r] := by
  cases mode <;> rfl

theorem aggregateStep_snd (mode : Mode) (effectOk : EffectCall → Bool)
    (acc : List ImportSpec × List EffectCall) (r : ImportSpec) :
    (aggregateStep mode effectOk acc r).2 = acc.2 ++ (callOf mode r).toList := by
  cases mode <;> simp [aggregateStep, callOf, Option.toList]

theorem aggregate_foldl_fst (mode : Mode) (effectOk : EffectCall → Bool)
    (received : List ImportSpec) :
    ∀ acc, (received.foldl (aggregateStep mode effectOk) acc).1 = acc.1 ++ received := by
  induction received with
  | nil => intro acc; simp
  | cons r rest ih =>
    intro acc
    simp only [List.foldl_cons]
    rw [ih]
    rw [aggregateStep_fst]
    simp

theorem aggregate_foldl_snd (mode : Mode) (effectOk : EffectCall → Bool)
    (received : List ImportSpec) :
    ∀ acc, (received.foldl (aggregateStep mode effectOk) acc).2
      = acc.2 ++ received.filterMap (callOf mode) := by
  induction received with
  | nil => intro acc; simp
  | cons r rest ih =>
    intro acc
    simp only [List.foldl_cons]
    rw [ih, aggregateStep_snd, List.filterMap_cons]
    cases h : callOf mode r <;> simp [Option.toList]

theorem aggregate_effect_independent (mode : Mode) (effectOk effectOk2 : EffectCall → Bool)
    (received : List ImportSpec) :
    aggregate mode effectOk received = aggregate mode effectOk2 received := by
  unfold aggregate
  have : aggregateStep mode effectOk = aggregateStep mode effectOk2 := by
    funext acc r
    cases mode <;> rfl
  rw [this]

/-- C8: in live-register (read) and incremental-import modes the
per-record side effect is attempted for every received record and its
result is discarded: whatever the side-effect outcomes, every received
record is present in the returned inventory (the whole received stream
is appended in order), processing continues through the entire stream,
the side-effect call trace covers every record of the mode, the
returned error is nil, and the run result does not depend on the
side-effect outcomes at all. -/
theorem sideEffectFailuresSwallowed (mode : Mode) (effectOk effectOk2 : EffectCall → Bool)
    (received : List ImportSpec) :
    (aggregate mode effectOk received).1.resources = received ∧
    (aggregate mode effectOk received).2.1 = received.filterMap (callOf mode) ∧
    (aggregate mode effectOk received).2.2 = none ∧
    aggregate mode effectOk received = aggregate mode effectOk2 received := by
  refine ⟨?_, ?_, rfl, aggregate_effect_independent mode effectOk effectOk2 received⟩
  · unfold aggregate
    rw [aggregate_foldl_fst]
    rfl
  · unfold aggregate
    rw [aggregate_foldl_snd]
    rfl

/-- C1 (amended): the Aggregator performs no deduplication of any kind:
the final inventory is exactly the received stream, so for every
(type token, identity) pair the number of matching records in the
final inventory equals the number of matching records that arrived on
the channel; uniqueness rests solely on the per-worker seen sets. -/
theorem aggregatorPerformsNoDedup (mode : Mode) (effectOk : EffectCall → Bool)
    (received : List ImportSpec) (t i : String) :
    (aggregate mode effectOk received).1.resources = received ∧
    ((aggregate mode effectOk received).1.resources.countP
        (fun r => r.type == t && r.id == i))
      = received.countP (fun r => r.type == t && r.id == i) := by
  have h : (aggregate mode effectOk received).1.resources = received := by
    unfold aggregate
    rw [aggregate_foldl_fst]
    rfl
  exact ⟨h, by rw [h]⟩

/-- Listing environment for the overlapping-shard scenario: every type
lists the single identifier a with no listing error. -/
def envOverlap : AwsEnv :=
  { nsMap := fun _ => none, pages := fun _ => [["a"]], listErr := fun _ => false }

/-- C1 counterexample: give two shard workers the same type descriptor
(the overlapping-shard misconfiguration named by the claim); both emit
the same record, the Aggregator appends both, and the final inventory
contains two Canonical Records with the identical
(type token, identity) pair — no final deduplication pass exists. -/
theorem overlappingShardsDuplicateSurvives :
    ¬ (((aggregate Mode.ImportMode (fun _ => true)
        ((awsWorker envOverlap ["aws-native:m:T"]).1
          ++ (awsWorker envOverlap ["aws-native:m:T"]).1)).1.resources.map
            (fun r => (r.type, r.id))).Nodup) := by
  decide

theorem awsProcessType_seen_records (nsMap : String → Option String)
    (pages : String → List (List String)) (f g : String → Bool)
    (st st2 : AwsWorkerState) (k : String)
    (hs : st.seen = st2.seen) (hr : st.records = st2.records) :
    (awsProcessType ⟨nsMap, pages, f⟩ st k).seen = (awsProcessType ⟨nsMap, pages, g⟩ st2 k).seen ∧
    (awsProcessType ⟨nsMap, pages, f⟩ st k).records = (awsProcessType ⟨nsMap, pages, g⟩ st2 k).records := by
  unfold awsProcessType
  by_cases hk : k ∈ awsResourcesToSkip
  · simp [hk, hs, hr]
  · simp [hk, hs, hr]

theorem awsFold_records_indep (nsMap : String → Option String)
    (pages : String → List (List String)) (f g : String → Bool) :
    ∀ (chunk : List String) (st st2 : AwsWorkerState),
      st.seen = st2.seen → st.records = st2.records →
      (chunk.foldl (awsProcessType ⟨nsMap, pages, f⟩) st).records
        = (chunk.foldl (awsProcessType ⟨nsMap, pages, g⟩) st2).records := by
  intro chunk
  induction chunk with
  | nil => intro st st2 _ hr; exact hr
  | cons k ks ih =>
    intro st st2 hs hr
    simp only [List.foldl_cons]
    have h := awsProcessType_seen_records nsMap pages f g st st2 k hs hr
    exact ih _ _ h.1 h.2

theorem awsProcessType_logs_mono (env : AwsEnv) (st : AwsWorkerState) (k x : String)
    (h : x ∈ st.logs) : x ∈ (awsProcessType env st k).logs := by
  unfold awsProcessType
  by_cases hk : k ∈ awsResourcesToSkip
  · simpa [hk]
  · simp [hk, h]

theorem awsFold_logs_mono (env : AwsEnv) :
    ∀ (chunk : List String) (st : AwsWorkerState) (x : String),
      x ∈ st.logs → x ∈ (chunk.foldl (awsProcessType env) st).logs := by
  intro chunk
  induction chunk with
  | nil => intro st x h; exact h
  | cons k ks ih =>
    intro st x h
    simp only [List.foldl_cons]
    exact ih _ x (awsProcessType_logs_mono env st k x h)

theorem awsProcessType_logs_err (env : AwsEnv) (st : AwsWorkerState) (k : String)
    (hk : k ∉ awsResourcesToSkip)
    (he : env.listErr (awsCloudControlType env.nsMap k) = true) :
    awsListErrLog (awsCloudControlType env.nsMap k) ∈ (awsProcessType env st k).logs := by
  unfold awsProcessType
  simp [hk, he]

theorem awsFold_logs_failure (env : AwsEnv) :
    ∀ (chunk : List String) (st : AwsWorkerState) (k : String), k ∈ chunk →
      k ∉ awsResourcesToSkip →
      env.listErr (awsCloudControlType env.nsMap k) = true →
      awsListErrLog (awsCloudControlType env.nsMap k) ∈ (chunk.foldl (awsProcessType env) st).logs := by
  intro chunk
  induction chunk with
  | nil => intro st k h; simp at h
  | cons c cs ih =>
    intro st k hmem hk he
    simp only [List.foldl_cons]
    rcases List.mem_cons.mp hmem with heq | htail
    · subst heq
      exact awsFold_logs_mono env cs _ _ (awsProcessType_logs_err env st k hk he)
    · exact ih _ k htail hk he

theorem azureCollectWorkers_error (env : AzureEnv) :
    ∀ (rgs : List String) (rg e : String), rg ∈ rgs → azureWorker env rg = .error e →
      ∃ e2, azureCollectWorkers env rgs = .error e2 := by
  intro rgs
  induction rgs with
  | nil => intro rg e h; simp at h
  | cons r rest ih =>
    intro rg e hmem hw
    rcases List.mem_cons.mp hmem with heq | htail
    · subst heq
      exact ⟨e, by simp [azureCollectWorkers, hw]⟩
    · cases hr : azureWorker env r with
      | error e3 => exact ⟨e3, by simp [azureCollectWorkers, hr]⟩
      | ok out =>
        obtain ⟨e2, hrec⟩ := ih rg e htail hw
        exact ⟨e2, by simp [azureCollectWorkers, hr, hrec]⟩

/-- C2 (amended): in the AWS variant a listing-call failure for one
type never changes what any worker discovers (the emitted records are
identical under any pattern of listing errors) and the failed type is
logged and the worker continues; in the live Azure variant, however, a
listing-page failure in any shard worker is a log.Fatalf that aborts
the entire run, losing the whole inventory. -/
theorem listingFailureLoggedAwsFatalAzure :
    (∀ (nsMap : String → Option String) (pages : String → List (List String))
        (f g : String → Bool) (chunk : List String),
      (awsWorker ⟨nsMap, pages, f⟩ chunk).1 = (awsWorker ⟨nsMap, pages, g⟩ chunk).1) ∧
    (∀ (env : AwsEnv) (chunk : List String) (k : String), k ∈ chunk →
      k ∉ awsResourcesToSkip →
      env.listErr (awsCloudControlType env.nsMap k) = true →
      awsListErrLog (awsCloudControlType env.nsMap k) ∈ (awsWorker env chunk).2) ∧
    (∀ (env : AzureEnv) (parents : List ImportSpec) (rg e : String),
      azureRgPhase env = .ok parents → rg ∈ parents.map (fun p => p.id) →
      azureWorker env rg = .error e → ∃ e2, azureV2Run env = .error e2) := by
  refine ⟨?_, ?_, ?_⟩
  · intro nsMap pages f g chunk
    exact awsFold_records_indep nsMap pages f g chunk ⟨[], [], []⟩ ⟨[], [], []⟩ rfl rfl
  · intro env chunk k hmem hk he
    exact awsFold_logs_failure env chunk ⟨[], [], []⟩ k hmem hk he
  · intro env parents rg e hp hm hw
    obtain ⟨e2, hc⟩ := azureCollectWorkers_error env (parents.map (fun p => p.id)) rg e hm hw
    exact ⟨e2, by simp [azureV2Run, hp, hc]⟩

/-- Environment for the Azure fatal-listing counterexample: two
resource groups in the configured location; listing the first group
fails on its first page, listing the second would succeed. -/
def azureEnvCx : AzureEnv :=
  { location := "l",
    rgPages := [.ok [⟨"/s/g1", "g1", some "l"⟩, ⟨"/s/g2", "g2", some "l"⟩]],
    resPages := fun n =>
      if n == "g1" then [.error "listing failed"]
      else [.ok [⟨"/s/g2/r1", "Microsoft.Compute/virtualMachines"⟩]],
    schema := ["azure-native:compute:virtualMachines"],
    title := fun s => s,
    singular := fun s => s }

/-- C2 counterexample: in the live Azure variant a listing failure for
one resource-group shard aborts the whole run (log.Fatalf): the run
returns the error and no inventory, so the resources of the sibling
group g2 are not discovered either. -/
theorem azureListingFailureAbortsRun :
    azureV2Run azureEnvCx = .error "listing failed" := by
  rfl

/-- The sanitized-identity keys of a record list, as entered in the
per-worker seen set. -/
def awsKeys (records : List ImportSpec) : List String :=
  records.map fun r => clearString r.id

/-- Invariant tying the per-worker seen set to the emitted records:
the emitted keys are pairwise distinct and the seen set holds exactly
them. -/
def AwsInv (st : List String × List ImportSpec) : Prop :=
  (awsKeys st.2).Nodup ∧ ∀ key, key ∈ st.1 ↔ key ∈ awsKeys st.2

theorem awsProcessIdentifier_inv (nsMap : String → Option String) (k : String)
    (st : List String × List ImportSpec) (rid : String) (h : AwsInv st) :
    AwsInv (awsProcessIdentifier nsMap k st rid) := by
  by_cases hc : clearString rid ∈ st.1
  · simpa [awsProcessIdentifier, hc] using h
  · have hk : clearString rid ∉ awsKeys st.2 := fun hmem => hc ((h.2 _).mpr hmem)
    have hfst : (awsProcessIdentifier nsMap k st rid).1 = clearString rid :: st.1 := by
      simp [awsProcessIdentifier, hc]
    have hsnd : awsKeys (awsProcessIdentifier nsMap k st rid).2
        = awsKeys st.2 ++ [clearString rid] := by
      simp [awsProcessIdentifier, hc, awsKeys]
    constructor
    · rw [hsnd, List.nodup_append]
      refine ⟨h.1, List.nodup_singleton _, ?_⟩
      intro a ha hb
      rw [List.mem_singleton] at hb
      subst hb
      exact hk ha
    · intro key
      rw [hfst, hsnd]
      constructor
      · intro hkey
        rcases List.mem_cons.mp hkey with he | hm
        · exact List.mem_append.mpr (Or.inr (by simp [he]))
        · exact List.mem_append.mpr (Or.inl ((h.2 key).mp hm))
      · intro hkey
        rcases List.mem_append.mp hkey with hm | he
        · exact List.mem_cons.mpr (Or.inr ((h.2 key).mpr hm))
        · exact List.mem_cons.mpr (Or.inl (by simpa using he))

theorem awsItemsFold_inv (nsMap : String → Option String) (k : String) :
    ∀ (items : List String) (st : List String × List ImportSpec), AwsInv st →
      AwsInv (items.foldl (awsProcessIdentifier nsMap k) st) := by
  intro items
  induction items with
  | nil => intro st h; exact h
  | cons rid rest ih =>
    intro st h
    exact ih _ (awsProcessIdentifier_inv nsMap k st rid h)

theorem awsPagesFold_inv (nsMap : String → Option String) (k : String) :
    ∀ (pages : List (List String)) (st : List String × List ImportSpec), AwsInv st →
      AwsInv (pages.foldl (fun s page => page.foldl (awsProcessIdentifier nsMap k) s) st) := by
  intro pages
  induction pages with
  | nil => intro st h; exact h
  | cons page rest ih =>
    intro st h
    exact ih _ (awsItemsFold_inv nsMap k page st h)

theorem awsProcessType_inv (env : AwsEnv) (st : AwsWorkerState) (k : String)
    (h : AwsInv (st.seen, st.records)) :
    AwsInv ((awsProcessType env st k).seen, (awsProcessType env st k).records) := by
  by_cases hk : k ∈ awsResourcesToSkip
  · simpa [awsProcessType, hk] using h
  · have := awsPagesFold_inv env.nsMap k (env.pages (awsCloudControlType env.nsMap k))
      (st.seen, st.records) h
    simpa [awsProcessType, hk] using this

theorem awsChunkFold_inv (env : AwsEnv) :
    ∀ (chunk : List String) (st : AwsWorkerState), AwsInv (st.seen, st.records) →
      AwsInv ((chunk.foldl (awsProcessType env) st).seen,
        (chunk.foldl (awsProcessType env) st).records) := by
  intro chunk
  induction chunk with
  | nil => intro st h; exact h
  | cons k ks ih =>
    intro st h
    exact ih _ (awsProcessType_inv env st k h)

theorem awsProcessIdentifier_seen_mono (nsMap : String → Option String) (k : String)
    (st : List String × List ImportSpec) (rid x : String) (h : x ∈ st.1) :
    x ∈ (awsProcessIdentifier nsMap k st rid).1 := by
  unfold awsProcessIdentifier
  by_cases hc : clearString rid ∈ st.1
  · simpa [hc]
  · simp [hc, h]

theorem awsProcessIdentifier_seen_self (nsMap : String → Option String) (k : String)
    (st : List String × List ImportSpec) (rid : String) :
    clearString rid ∈ (awsProcessIdentifier nsMap k st rid).1 := by
  unfold awsProcessIdentifier
  by_cases hc : clearString rid ∈ st.1
  · simp [hc]
  · simp [hc]

theorem awsItemsFold_seen_mono (nsMap : String → Option String) (k : String) :
    ∀ (items : List String) (st : List String × List ImportSpec) (x : String),
      x ∈ st.1 → x ∈ (items.foldl (awsProcessIdentifier nsMap k) st).1 := by
  intro items
  induction items with
  | nil => intro st x h; exact h
  | cons rid rest ih =>
    intro st x h
    exact ih _ x (awsProcessIdentifier_seen_mono nsMap k st rid x h)

theorem awsItemsFold_seen_cover (nsMap : String → Option String) (k : String) :
    ∀ (items : List String) (st : List String × List ImportSpec) (rid : String),
      rid ∈ items → clearString rid ∈ (items.foldl (awsProcessIdentifier nsMap k) st).1 := by
  intro items
  induction items with
  | nil => intro st rid h; simp at h
  | cons i rest ih =>
    intro st rid hmem
    rcases List.mem_cons.mp hmem with heq | htail
    · subst heq
      exact awsItemsFold_seen_mono nsMap k rest _ _
        (awsProcessIdentifier_seen_self nsMap k st rid)
    · exact ih _ rid htail

theorem awsPagesFold_seen_mono (nsMap : String → Option String) (k : String) :
    ∀ (pages : List (List String)) (st : List String × List ImportSpec) (x : String),
      x ∈ st.1 →
      x ∈ (pages.foldl (fun s page => page.foldl (awsProcessIdentifier nsMap k) s) st).1 := by
  intro pages
  induction pages with
  | nil => intro st x h; exact h
  | cons page rest ih =>
    intro st x h
    exact ih _ x (awsItemsFold_seen_mono nsMap k page st x h)

theorem awsPagesFold_seen_cover (nsMap : String → Option String) (k : String) :
    ∀ (pages : List (List String)) (st : List String × List ImportSpec) (rid : String),
      rid ∈ pages.flatten →
      clearString rid ∈
        (pages.foldl (fun s page => page.foldl (awsProcessIdentifier nsMap k) s) st).1 := by
  intro pages
  induction pages with
  | nil => intro st rid h; simp at h
  | cons page rest ih =>
    intro st rid hmem
    rw [List.flatten_cons] at hmem
    rcases List.mem_append.mp hmem with hpage | hrest
    · exact awsPagesFold_seen_mono nsMap k rest _ _
        (awsItemsFold_seen_cover nsMap k page st rid hpage)
    · exact ih _ rid hrest

theorem awsProcessType_seen_mono (env : AwsEnv) (st : AwsWorkerState) (k x : String)
    (h : x ∈ st.seen) : x ∈ (awsProcessType env st k).seen := by
  by_cases hk : k ∈ awsResourcesToSkip
  · simpa [awsProcessType, hk]
  · have := awsPagesFold_seen_mono env.nsMap k (env.pages (awsCloudControlType env.nsMap k))
      (st.seen, st.records) x h
    simpa [awsProcessType, hk] using this

theorem awsChunkFold_seen_mono (env : AwsEnv) :
    ∀ (chunk : List String) (st : AwsWorkerState) (x : String),
      x ∈ st.seen → x ∈ (chunk.foldl (awsProcessType env) st).seen := by
  intro chunk
  induction chunk with
  | nil => intro st x h; exact h
  | cons k ks ih =>
    intro st x h
    exact ih _ x (awsProcessType_seen_mono env st k x h)

theorem awsChunkFold_seen_cover (env : AwsEnv) :
    ∀ (chunk : List String) (st : AwsWorkerState) (k : String), k ∈ chunk →
      k ∉ awsResourcesToSkip →
      ∀ rid, rid ∈ (env.pages (awsCloudControlType env.nsMap k)).flatten →
        clearString rid ∈ (chunk.foldl (awsProcessType env) st).seen := by
  intro chunk
  induction chunk with
  | nil => intro st k h; simp at h
  | cons c cs ih =>
    intro st k hmem hk rid hrid
    rcases List.mem_cons.mp hmem with heq | htail
    · subst heq
      apply awsChunkFold_seen_mono env cs _ _
      have := awsPagesFold_seen_cover env.nsMap k (env.pages (awsCloudControlType env.nsMap k))
        (st.seen, st.records) rid hrid
      simpa [awsProcessType, hk] using this
    · exact ih _ k htail hk rid hrid

theorem insightsItemsFold_length (ns typPart k : String) :
    ∀ (items : List (Option String)) (acc : Nat × List ImportSpec),
      (items.foldl (insightsProcessPageItem ns typPart k) acc).2.length
        = acc.2.length + items.countP (fun o => o.isSome) := by
  intro items
  induction items with
  | nil => intro acc; simp
  | cons i rest ih =>
    intro acc
    simp only [List.foldl_cons]
    rw [ih]
    cases i with
    | none => simp [insightsProcessPageItem, List.countP_cons]
    | some v => simp [insightsProcessPageItem, List.countP_cons]; omega

theorem insightsPagesFold_length (ns typPart k : String) :
    ∀ (pages : List (List (Option String))) (acc : Nat × List ImportSpec),
      (pages.foldl (fun a page => page.foldl (insightsProcessPageItem ns typPart k) a) acc).2.length
        = acc.2.length + pages.flatten.countP (fun o => o.isSome) := by
  intro pages
  induction pages with
  | nil => intro acc; simp
  | cons page rest ih =>
    intro acc
    simp only [List.foldl_cons]
    rw [ih, insightsItemsFold_length]
    simp [List.countP_append]
    omega

/-- C4 (amended): in the AWS variant the per-worker seen set (keyed by
the sanitized identity) deduplicates across pagination boundaries:
a worker never emits two records with the same sanitized identity, and
for every identifier listed on any page of a processed type exactly
one emitted record carries that sanitized identity (so the overlapping
pages [id1, id2] and [id2, id3] yield three records, see the witness);
in the insights variant there is no seen set and one record is emitted
per listed item with an identifier, so overlapping pages yield
duplicates (see the counterexample). -/
theorem perWorkerSeenSetDedup (env : AwsEnv) (chunk : List String) :
    ((awsWorker env chunk).1.map fun r => clearString r.id).Nodup ∧
    (∀ k, k ∈ chunk → k ∉ awsResourcesToSkip →
      ∀ rid, rid ∈ (env.pages (awsCloudControlType env.nsMap k)).flatten →
        clearString rid ∈ ((awsWorker env chunk).1.map fun r => clearString r.id)) ∧
    (∀ (nsMap : String → Option String) (k : String) (pages : List (List (Option String))),
      (insightsProcessType nsMap k pages).length
        = pages.flatten.countP (fun o => o.isSome)) := by
  have hinv : AwsInv ((chunk.foldl (awsProcessType env) ⟨[], [], []⟩).seen,
      (chunk.foldl (awsProcessType env) ⟨[], [], []⟩).records) :=
    awsChunkFold_inv env chunk ⟨[], [], []⟩ (by constructor <;> simp [awsKeys])
  refine ⟨hinv.1, ?_, ?_⟩
  · intro k hmem hk rid hrid
    have hseen := awsChunkFold_seen_cover env chunk ⟨[], [], []⟩ k hmem hk rid hrid
    exact (hinv.2 _).mp hseen
  · intro nsMap k pages
    unfold insightsProcessType
    rw [insightsPagesFold_length]
    simp

/-- The overlapping-pages scenario of the claim: one type whose listing
returns the pages [id1, id2] and then [id2, id3]. -/
def envScenario : AwsEnv :=
  { nsMap := fun _ => none,
    pages := fun _ => [["id1", "id2"], ["id2", "id3"]],
    listErr := fun _ => false }

/-- C4 witness: in the AWS variant the scenario worker emits exactly
the three records id1, id2, id3 (the overlapping id2 is collapsed),
and the coverage part of the theorem applies to id1 concretely. -/
theorem perWorkerSeenSetDedup_witness :
    (clearString "id1" ∈ ((awsWorker envScenario ["aws-native:m:TypeX"]).1.map
        fun r => clearString r.id)) ∧
    ((awsWorker envScenario ["aws-native:m:TypeX"]).1.map fun r => r.id)
      = ["id1", "id2", "id3"] :=
  ⟨(perWorkerSeenSetDedup envScenario ["aws-native:m:TypeX"]).2.1
      "aws-native:m:TypeX" (by decide) (by decide) "id1" (by decide),
   by decide⟩

/-- C4 counterexample: the insights variant has no seen set, so the
same overlapping pages produce four records, two of them for the same
identity id2 — the inventory does not end up with exactly one record
per distinct identity. -/
theorem overlappingPagesNotDedupedInsights :
    (insightsProcessType (fun _ => none) "aws-native:m:T"
        [[some "id1", some "id2"], [some "id2", some "id3"]]).length = 4 ∧
    (insightsProcessType (fun _ => none) "aws-native:m:T"
        [[some "id1", some "id2"], [some "id2", some "id3"]]).countP
          (fun r => r.id == "id2") = 2 := by
  constructor <;> decide

/-- The display name the AWS worker gives a record, as a function of
the fields the record itself carries. -/
def AwsNameOk (nsMap : String → Option String) (r : ImportSpec) : Prop :=
  r.name = clearString (awsNamespace nsMap r.type ++ awsTypePart r.type ++ r.id)

theorem awsProcessIdentifier_names (nsMap : String → Option String) (k : String)
    (st : List String × List ImportSpec) (rid : String)
    (h : ∀ x ∈ st.2, AwsNameOk nsMap x) :
    ∀ x ∈ (awsProcessIdentifier nsMap k st rid).2, AwsNameOk nsMap x := by
  unfold awsProcessIdentifier
  by_cases hc : clearString rid ∈ st.1
  · simpa [hc] using h
  · intro x hx
    rw [if_neg (by simpa using hc : ¬ st.1.contains (clearString rid) = true)] at hx
    rcases List.mem_append.mp hx with hold | hnew
    · exact h x hold
    · rw [List.mem_singleton] at hnew
      subst hnew
      rfl

theorem awsItemsFold_names (nsMap : String → Option String) (k : String) :
    ∀ (items : List String) (st : List String × List ImportSpec),
      (∀ x ∈ st.2, AwsNameOk nsMap x) →
      ∀ x ∈ (items.foldl (awsProcessIdentifier nsMap k) st).2, AwsNameOk nsMap x := by
  intro items
  induction items with
  | nil => intro st h; exact h
  | cons rid rest ih =>
    intro st h
    exact ih _ (awsProcessIdentifier_names nsMap k st rid h)

theorem awsPagesFold_names (nsMap : String → Option String) (k : String) :
    ∀ (pages : List (List String)) (st : List String × List ImportSpec),
      (∀ x ∈ st.2, AwsNameOk nsMap x) →
      ∀ x ∈ (pages.foldl (fun s page => page.foldl (awsProcessIdentifier nsMap k) s) st).2,
        AwsNameOk nsMap x := by
  intro pages
  induction pages with
  | nil => intro st h; exact h
  | cons page rest ih =>
    intro st h
    exact ih _ (awsItemsFold_names nsMap k page st h)

theorem awsChunkFold_names (env : AwsEnv) :
    ∀ (chunk : List String) (st : AwsWorkerState),
      (∀ x ∈ st.records, AwsNameOk env.nsMap x) →
      ∀ x ∈ (chunk.foldl (awsProcessType env) st).records, AwsNameOk env.nsMap x := by
  intro chunk
  induction chunk with
  | nil => intro st h; exact h
  | cons k ks ih =>
    intro st h
    apply ih
    by_cases hk : k ∈ awsResourcesToSkip
    · simpa [awsProcessType, hk] using h
    · have := awsPagesFold_names env.nsMap k (env.pages (awsCloudControlType env.nsMap k))
        (st.seen, st.records) h
      simpa [awsProcessType, hk] using this

theorem azureProcessRes_pres (env : AzureEnv) (rgId : String) (P : ImportSpec → Prop)
    (hP : ∀ r : AzureRes, P (azureChildRecord env rgId r))
    (st : List String × List ImportSpec) (r : AzureRes)
    (h : ∀ x ∈ st.2, P x) : ∀ x ∈ (azureProcessRes env rgId st r).2, P x := by
  unfold azureProcessRes
  intro x hx
  split at hx
  · exact h x hx
  · split at hx
    · exact h x hx
    · split at hx
      · exact h x hx
      · simp only at hx
        rcases List.mem_append.mp hx with hold | hnew
        · exact h x hold
        · rw [List.mem_singleton] at hnew
          subst hnew
          exact hP r

theorem azureResFold_pres (env : AzureEnv) (rgId : String) (P : ImportSpec → Prop)
    (hP : ∀ r : AzureRes, P (azureChildRecord env rgId r)) :
    ∀ (rs : List AzureRes) (st : List String × List ImportSpec),
      (∀ x ∈ st.2, P x) → ∀ x ∈ (rs.foldl (azureProcessRes env rgId) st).2, P x := by
  intro rs
  induction rs with
  | nil => intro st h; exact h
  | cons r rest ih =>
    intro st h
    exact ih _ (azureProcessRes_pres env rgId P hP st r h)

theorem azureWorkerAux_pres (env : AzureEnv) (rgId : String) (P : ImportSpec → Prop)
    (hP : ∀ r : AzureRes, P (azureChildRecord env rgId r)) :
    ∀ (pages : List (Except String (List AzureRes))) (st : List String × List ImportSpec)
      (out : List String × List ImportSpec),
      azureWorkerAux env rgId pages st = .ok out →
      (∀ x ∈ st.2, P x) → ∀ x ∈ out.2, P x := by
  intro pages
  induction pages with
  | nil =>
    intro st out hok h
    cases hok
    exact h
  | cons page rest ih =>
    intro st out hok h
    cases page with
    | error e => cases hok
    | ok rs =>
      exact ih _ out hok (azureResFold_pres env rgId P hP rs st h)

theorem azureWorker_pres (env : AzureEnv) (rgId : String) (P : ImportSpec → Prop)
    (hP : ∀ r : AzureRes, P (azureChildRecord env rgId r))
    (out : List ImportSpec) (hok : azureWorker env rgId = .ok out) :
    ∀ x ∈ out, P x := by
  unfold azureWorker at hok
  cases haux : azureWorkerAux env rgId
      (env.resPages ((goSplit '/' rgId).getLastD "")) ([], []) with
  | error e => rw [haux] at hok; cases hok
  | ok st =>
    rw [haux] at hok
    cases hok
    exact azureWorkerAux_pres env rgId P hP _ ([], []) st haux (by simp)

theorem azureRgPhaseAux_pres (location : String) (P : ImportSpec → Prop)
    (hP : ∀ rg : AzureRg, P (azureRgRecord rg)) :
    ∀ (pages : List (Except String (List AzureRg))) (acc out : List ImportSpec),
      azureRgPhaseAux location pages acc = .ok out →
      (∀ x ∈ acc, P x) → ∀ x ∈ out, P x := by
  intro pages
  induction pages with
  | nil =>
    intro acc out hok h
    cases hok
    exact h
  | cons page rest ih =>
    intro acc out hok h
    cases page with
    | error e => cases hok
    | ok rgs =>
      apply ih _ out hok
      intro x hx
      rcases List.mem_append.mp hx with hold | hnew
      · exact h x hold
      · obtain ⟨rg, _, hrg⟩ := List.mem_map.mp hnew
        subst hrg
        exact hP rg

theorem azureRgPhase_pres (env : AzureEnv) (P : ImportSpec → Prop)
    (hP : ∀ rg : AzureRg, P (azureRgRecord rg))
    (parents : List ImportSpec) (hok : azureRgPhase env = .ok parents) :
    ∀ x ∈ parents, P x :=
  azureRgPhaseAux_pres env.location P hP env.rgPages [] parents hok (by simp)

/-- C3 (amended): in the AWS and Azure variants every record placed on
the output channel carries a display name that is exactly the
clearString sanitization of its source text — hence it contains no
character outside [A-Za-z0-9 ], disallowed characters are stripped,
not substituted (the sanitized data is a subsequence of the source
data), and colliding names are left exactly as the sanitizer produced
them, with no disambiguation appended; the Kubernetes and insights
variants do not sanitize (see the counterexample). -/
theorem displayNamesSanitizedAwsAzure :
    (∀ (env : AwsEnv) (chunk : List String) (r : ImportSpec), r ∈ (awsWorker env chunk).1 →
      r.name = clearString (awsNamespace env.nsMap r.type ++ awsTypePart r.type ++ r.id) ∧
      r.name.data.all isAllowedChar = true) ∧
    (∀ (env : AzureEnv) (parents : List ImportSpec), azureRgPhase env = .ok parents →
      ∀ p ∈ parents, p.name.data.all isAllowedChar = true) ∧
    (∀ (env : AzureEnv) (rgId : String) (out : List ImportSpec),
      azureWorker env rgId = .ok out →
      ∀ r ∈ out, r.name = clearString ((goSplit '/' r.id).getLastD "") ∧
        r.name.data.all isAllowedChar = true) ∧
    (∀ s : String, (clearString s).data.Sublist s.data) := by
  refine ⟨?_, ?_, ?_, clearString_sublist⟩
  · intro env chunk r hr
    have hname : AwsNameOk env.nsMap r :=
      awsChunkFold_names env chunk ⟨[], [], []⟩ (by simp) r hr
    exact ⟨hname, by rw [hname]; exact clearString_all_allowed _⟩
  · intro env parents hok p hp
    exact azureRgPhase_pres env (fun x => x.name.data.all isAllowedChar = true)
      (fun rg => clearString_all_allowed rg.name) parents hok p hp
  · intro env rgId out hok r hr
    have hname : r.name = clearString ((goSplit '/' r.id).getLastD "") :=
      azureWorker_pres env rgId
        (fun x => x.name = clearString ((goSplit '/' x.id).getLastD ""))
        (fun res => rfl) out hok r hr
    exact ⟨hname, by rw [hname]; exact clearString_all_allowed _⟩

/-- A well-behaved Azure environment: one resource group g1 in the
configured location holding one virtual machine. -/
def azureEnvOk : AzureEnv :=
  { location := "l",
    rgPages := [.ok [⟨"/subscriptions/s/resourceGroups/g1", "g1", some "l"⟩]],
    resPages := fun n =>
      if n == "g1" then
        [.ok [⟨"/subscriptions/s/resourceGroups/g1/providers/Microsoft.Compute/virtualMachines/vm1",
              "Microsoft.Compute/virtualMachines"⟩]]
      else [],
    schema := ["azure-native:compute:virtualMachines"],
    title := fun s => s,
    singular := fun s => s }

/-- The resource-group record the first phase produces on azureEnvOk. -/
def azureRgOkRecord : ImportSpec :=
  { type := "azure-native:resources:ResourceGroup", name := "g1",
    id := "/subscriptions/s/resourceGroups/g1", parent := "" }

/-- The child record the g1 shard worker produces on azureEnvOk. -/
def azureChildOkRecord : ImportSpec :=
  { type := "azure-native:compute:virtualMachines", name := "vm1",
    id := "/subscriptions/s/resourceGroups/g1/providers/Microsoft.Compute/virtualMachines/vm1",
    parent := "/subscriptions/s/resourceGroups/g1" }

/-- C3 witness: the sanitation facts applied to one concrete AWS record
and one concrete Azure child record. -/
theorem displayNamesSanitizedAwsAzure_witness :
    (({ type := "aws-native:m:TypeX", name := "mTypeXid1", id := "id1",
        parent := "" } : ImportSpec).name
        = clearString (awsNamespace envScenario.nsMap "aws-native:m:TypeX"
            ++ awsTypePart "aws-native:m:TypeX" ++ "id1") ∧
      ("mTypeXid1" : String).data.all isAllowedChar = true) ∧
    (azureChildOkRecord.name
        = clearString ((goSplit '/' azureChildOkRecord.id).getLastD "") ∧
      azureChildOkRecord.name.data.all isAllowedChar = true) :=
  ⟨displayNamesSanitizedAwsAzure.1 envScenario ["aws-native:m:TypeX"]
      { type := "aws-native:m:TypeX", name := "mTypeXid1", id := "id1", parent := "" }
      (by decide),
   displayNamesSanitizedAwsAzure.2.2.1 azureEnvOk "/subscriptions/s/resourceGroups/g1"
      [azureChildOkRecord] (by rfl) azureChildOkRecord (by simp)⟩

/-- C3 counterexample: the Kubernetes variant publishes the raw
namespace/name pair as the display name with no sanitization — the
slash is outside [A-Za-z0-9 ]. -/
theorem k8sNameUnsanitized :
    (k8sRecord "" "v1" "Pod" "default" "pod1").name = "default/pod1" ∧
    ((k8sRecord "" "v1" "Pod" "default" "pod1").name.data.all isAllowedChar) = false := by
  constructor <;> decide

/-- The default record used with getD when indexing a received
stream. -/
def noRecord : ImportSpec :=
  { type := "", name := "", id := "", parent := "" }

theorem azureWorker_parent (env : AzureEnv) (rgId : String) (out : List ImportSpec)
    (hok : azureWorker env rgId = .ok out) : ∀ r ∈ out, r.parent = rgId :=
  azureWorker_pres env rgId (fun x => x.parent = rgId) (fun _ => rfl) out hok

theorem azureRgPhase_shape (env : AzureEnv) (parents : List ImportSpec)
    (hok : azureRgPhase env = .ok parents) :
    ∀ p ∈ parents, p.type = "azure-native:resources:ResourceGroup" :=
  azureRgPhase_pres env (fun x => x.type = "azure-native:resources:ResourceGroup")
    (fun _ => rfl) parents hok

/-- C5: when parent-linking is enabled (the live Azure variant) the
pipeline is structurally two-phase: the first phase enumerates every
resource-group record and enqueues all of them on the shared channel
before any child-shard worker starts, so in every admissible receive
order — the resource-group prefix followed by an arbitrary
interleaving of worker outputs — every record received at a position
past the prefix is a child whose referenced parent record (matching
identifier, resource-group type token) was received at a strictly
earlier position, regardless of worker timing. -/
theorem parentsBeforeChildren (env : AzureEnv) (parents rest : List ImportSpec)
    (hp : azureRgPhase env = .ok parents)
    (hrest : ∀ r ∈ rest, ∃ rg ∈ parents, ∃ out,
      azureWorker env rg.id = .ok out ∧ r ∈ out) :
    ∀ j, parents.length ≤ j → j < (parents ++ rest).length →
      ∃ i, i < parents.length ∧ i < j ∧
        ((parents ++ rest).getD i noRecord).id = ((parents ++ rest).getD j noRecord).parent ∧
        ((parents ++ rest).getD i noRecord).type = "azure-native:resources:ResourceGroup" := by
  intro j hj1 hj2
  have hjr : j - parents.length < rest.length := by
    rw [List.length_append] at hj2
    omega
  have hgetj : (parents ++ rest).getD j noRecord = rest.getD (j - parents.length) noRecord :=
    List.getD_append_right parents rest noRecord j hj1
  have hmem : rest.getD (j - parents.length) noRecord ∈ rest := by
    rw [List.getD_eq_getElem rest noRecord hjr]
    exact List.getElem_mem hjr
  obtain ⟨rg, hrg, out, hok, hout⟩ := hrest _ hmem
  obtain ⟨i, hi, hieq⟩ := List.mem_iff_getElem.mp hrg
  refine ⟨i, hi, by omega, ?_, ?_⟩
  · have hgeti : (parents ++ rest).getD i noRecord = parents.getD i noRecord :=
      List.getD_append parents rest noRecord i hi
    rw [hgeti, List.getD_eq_getElem parents noRecord hi]
    have hpar : (rest.getD (j - parents.length) noRecord).parent = rg.id :=
      azureWorker_parent env rg.id out hok _ hout
    rw [hgetj, hpar]
    simpa using congrArg ImportSpec.id hieq
  · have hgeti : (parents ++ rest).getD i noRecord = parents.getD i noRecord :=
      List.getD_append parents rest noRecord i hi
    rw [hgeti, List.getD_eq_getElem parents noRecord hi]
    exact azureRgPhase_shape env parents hp _ (List.getElem_mem hi)

/-- C5 witness: the two-phase ordering applied to the concrete
one-group environment azureEnvOk, with the child record received at
position 1 and its parent at position 0. -/
theorem parentsBeforeChildren_witness :
    ∃ i, i < 1 ∧ i < 1 ∧
      ((([azureRgOkRecord] ++ [azureChildOkRecord]).getD i noRecord).id
        = (([azureRgOkRecord] ++ [azureChildOkRecord]).getD 1 noRecord).parent) ∧
      ((([azureRgOkRecord] ++ [azureChildOkRecord]).getD i noRecord).type
        = "azure-native:resources:ResourceGroup") :=
  parentsBeforeChildren azureEnvOk [azureRgOkRecord] [azureChildOkRecord]
    (by rfl)
    (by
      intro r hr
      have heq : r = azureChildOkRecord := by simpa using hr
      subst heq
      exact ⟨azureRgOkRecord, by simp, [azureChildOkRecord], by rfl, by simp⟩)
    1 (by decide) (by decide)

/-- C6: for any catalog of M type tokens and any worker count N >= 1
the round-robin partitioner produces exactly N shards, their multiset
union is the catalog, distinct catalog entries never share a shard
(pairwise disjointness, using that schema map keys are distinct), the
shards past position M are empty when N > M, and a worker given an
empty shard completes immediately with no records and no logs. -/
theorem partitionerTotalDisjoint (catalog : List String) (n : Nat) (hn : 1 ≤ n) :
    (partitionGo catalog n).length = n ∧
    (partitionGo catalog n).flatten.Perm catalog ∧
    (catalog.Nodup → (partitionGo catalog n).Pairwise List.Disjoint) ∧
    (∀ i, catalog.length ≤ i → i < n → (partitionGo catalog n).getD i [] = []) ∧
    (∀ env : AwsEnv, awsWorker env [] = ([], [])) :=
  ⟨partitionGo_length catalog n,
   partitionGo_flatten_perm catalog n hn,
   fun hnd => partitionGo_disjoint catalog n hn hnd,
   partitionGo_tail_empty catalog n,
   fun _ => rfl⟩

/-- C6 witness: the partitioner facts applied to the two-element
catalog with three workers (N > M). -/
theorem partitionerTotalDisjoint_witness :
    (1 ≤ 3) ∧
    ((partitionGo ["a", "b"] 3).length = 3 ∧
     (partitionGo ["a", "b"] 3).flatten.Perm ["a", "b"] ∧
     ((["a", "b"] : List String).Nodup → (partitionGo ["a", "b"] 3).Pairwise List.Disjoint) ∧
     (∀ i, (["a", "b"] : List String).length ≤ i → i < 3 →
        (partitionGo ["a", "b"] 3).getD i [] = []) ∧
     (∀ env : AwsEnv, awsWorker env [] = ([], []))) :=
  ⟨by decide, partitionerTotalDisjoint ["a", "b"] 3 (by decide)⟩

/-- C9: the first Azure variant of buildImportSpec returns immediately
after the resource-group sanity check: its result does not depend on
the discovery pipeline that follows the return statement, nor on any
environment that pipeline would consume (the pipeline is unreachable
on every execution path), the returned inventory always has an empty
Resources list, and a successful sanity check yields a nil error. -/
theorem azureV1ReturnsEarly :
    (∀ (sanity : Except String Unit) (p q : AzureEnv → Except String ImportFile)
        (env env2 : AzureEnv),
      azureV1BuildImportSpec sanity p env = azureV1BuildImportSpec sanity q env2) ∧
    (∀ sanity p env, (azureV1BuildImportSpec sanity p env).1.resources = []) ∧
    (∀ p env, (azureV1BuildImportSpec (Except.ok ()) p env).2 = none) := by
  refine ⟨?_, ?_, ?_⟩
  · intro s p q e1 e2
    cases s <;> rfl
  · intro s p e
    cases s <;> rfl
  · intro p e
    rfl

theorem partitionChecked_zero (catalog : List String) (h : catalog ≠ []) :
    partitionChecked catalog 0 = .error .indexOutOfRange := by
  cases catalog with
  | nil => exact absurd rfl h
  | cons k ks => simp [partitionChecked, partitionFoldChecked, Except.map]

/-- C10 (amended): getConcurrentWorkers returns 10 whenever the
variable is unset (empty) or not parseable and otherwise returns the
parsed value with no positivity check, so worker count 0 (or a
negative count) flows into the partitioning step; with the variable
set to 0 and a nonempty catalog, however, the loop panics at the
out-of-range shard access pkgChunks[index] on the zero-length shard
slice, a statement Go executes before index = index % chunks, so the
division-by-zero branch itself is never the one that fires. -/
theorem workerCountUnchecked :
    getConcurrentWorkers "" = 10 ∧
    getConcurrentWorkers "abc" = 10 ∧
    (∀ s w, goAtoi s = some w → getConcurrentWorkers s = w) ∧
    getConcurrentWorkers "0" = 0 ∧
    getConcurrentWorkers "-5" = -5 ∧
    (∀ catalog : List String, catalog ≠ [] →
      partitionChecked catalog (getConcurrentWorkers "0") = .error .indexOutOfRange) := by
  refine ⟨by decide, by decide, ?_, by decide, by decide, ?_⟩
  · intro s w h
    simp [getConcurrentWorkers, h]
  · intro catalog h
    have h0 : getConcurrentWorkers "0" = 0 := by decide
    rw [h0]
    exact partitionChecked_zero catalog h

/-- C10 witness: the parsed value is returned unchecked for the
concrete input 7, and the zero-worker partitioning panic applied to a
concrete one-element catalog. -/
theorem workerCountUnchecked_witness :
    getConcurrentWorkers "7" = 7 ∧
    partitionChecked ["aws-native:m:T"] (getConcurrentWorkers "0")
      = .error .indexOutOfRange :=
  ⟨workerCountUnchecked.2.2.1 "7" 7 (by decide),
   workerCountUnchecked.2.2.2.2.2 ["aws-native:m:T"] (by decide)⟩

/-- C10 counterexample: with PULUMI_CLOUD_IMPORT_WORKERS set to 0 and a
nonempty catalog the partitioning loop does panic, but the concrete
execution aborts with the index-out-of-range panic at the shard
access, not at the division-by-zero branch of index % chunks: that
statement is never reached. -/
theorem zeroWorkersPanicIsIndexOutOfRange :
    partitionChecked ["aws-native:m:T"] (getConcurrentWorkers "0")
        = Except.error GoPanic.indexOutOfRange ∧
    partitionChecked ["aws-native:m:T"] (getConcurrentWorkers "0")
        ≠ Except.error GoPanic.divByZero := by
  refine ⟨rfl, ?_⟩
  intro h
  rw [show partitionChecked ["aws-native:m:T"] (getConcurrentWorkers "0")
      = (Except.error GoPanic.indexOutOfRange : Except GoPanic (List (List String)))
      from rfl] at h
  simp at h

/-- Listing environment in which every listing call reports an error
after delivering no pages. -/
def envErr : AwsEnv :=
  { nsMap := fun _ => none, pages := fun _ => [], listErr := fun _ => true }

/-- C2 witness: the AWS failure-logging fact applied to a concrete
two-type chunk whose first type fails, and the Azure fatal-abort fact
applied to the concrete environment azureEnvCx. -/
theorem listingFailureLoggedAwsFatalAzure_witness :
    (awsListErrLog (awsCloudControlType envErr.nsMap "aws-native:m:T")
      ∈ (awsWorker envErr ["aws-native:m:T", "aws-native:m:U"]).2) ∧
    (∃ e2, azureV2Run azureEnvCx = .error e2) :=
  ⟨listingFailureLoggedAwsFatalAzure.2.1 envErr ["aws-native:m:T", "aws-native:m:U"]
      "aws-native:m:T" (by decide) (by decide) (by decide),
   listingFailureLoggedAwsFatalAzure.2.2 azureEnvCx
      [{ type := "azure-native:resources:ResourceGroup", name := "g1", id := "/s/g1", parent := "" },
       { type := "azure-native:resources:ResourceGroup", name := "g2", id := "/s/g2", parent := "" }]
      "/s/g1" "listing failed" (by rfl) (by decide) (by rfl)⟩

end CloudImport
